import Mathlib

/-!
Shallow embedding of the usage-tracking core of the repository
(`src/services/usage_tracker.py`, `src/database.py`, `src/routers/usage.py`).

Modelling choices:
* The three SQL tables (`session_usage`, `daily_usage`, `monthly_usage`) are
  lists of row structures inside a `Store`; a row's autoincrement `id` and the
  `created_at` / `updated_at` timestamp columns are not modelled (no claim
  mentions them); insertion order of the lists is the insertion order of rows.
* SQLite upsert semantics (`insert ... on_conflict_do_update` with the table's
  unique index as conflict target) is modelled by a scan for a conflicting row.
  Following SQLite, two NULL `user_id` values are distinct for the purpose of a
  unique index, so a row whose `user_id` is NULL never conflicts with anything.
* Python `int` is modelled as `Int`; SQLite REAL cost columns are modelled as
  exact rationals `Rat` (the claims under study are about which values are
  added, not about binary floating-point rounding).
* `datetime.date` is modelled as a year/month/day triple; comparison of dates
  uses the numeric key `y*10000 + m*100 + d`, which agrees with calendar order
  on real dates; `year_month` is the formatted `"YYYY-MM"` string exactly as
  built on line 36 of `usage_tracker.py`.
-/

/-- A calendar date (the `date` part of the event's timestamp). -/
structure Date where
  year : Nat
  month : Nat
  day : Nat
deriving DecidableEq, Repr

/-- Numeric key giving calendar order on dates (valid dates have
`month ≤ 12`, `day ≤ 31`, so the key is order-faithful). -/
def Date.key (d : Date) : Nat :=
  d.year * 10000 + d.month * 100 + d.day

/-- `d1 <= d2` as SQLite compares DATE columns. -/
def Date.leb (d1 d2 : Date) : Bool :=
  d1.key ≤ d2.key

/-- Left-pad a numeral string with zeros to width `w` (Python `f"{n:04d}"`). -/
def padZero (w : Nat) (n : Nat) : String :=
  let s := toString n
  String.mk (List.replicate (w - s.length) '0') ++ s

/-- `f"{usage_date.year:04d}-{usage_date.month:02d}"` (usage_tracker.py:36). -/
def Date.yearMonth (d : Date) : String :=
  padZero 4 d.year ++ "-" ++ padZero 2 d.month

/-- One usage event: the keyword arguments of `track_usage`
(usage_tracker.py:13-27), with `usage_date` standing for the date part of
`usage_datetime or datetime.now(UTC)` (usage_tracker.py:34-35). -/
structure UsageEvent where
  session_id : String
  user_id : Option String
  provider : String
  model_id : String
  prompt_tokens : Int
  completion_tokens : Int
  input_cost : Rat
  output_cost : Rat
  total_cost : Rat
  currency : String
  usage_date : Date
deriving DecidableEq, Repr

/-- `total_tokens = prompt_tokens + completion_tokens` (usage_tracker.py:33). -/
def UsageEvent.total_tokens (e : UsageEvent) : Int :=
  e.prompt_tokens + e.completion_tokens

/-- A row of table `session_usage` (database.py:17-44). -/
structure SessionUsage where
  session_id : String
  user_id : Option String
  usage_date : Date
  provider : String
  model_id : String
  prompt_tokens : Int
  completion_tokens : Int
  total_tokens : Int
  input_cost : Rat
  output_cost : Rat
  total_cost : Rat
  currency : String
deriving DecidableEq, Repr

/-- A row of table `daily_usage` (database.py:47-65). -/
structure DailyUsage where
  date : Date
  user_id : Option String
  provider : String
  model_id : String
  prompt_tokens : Int
  completion_tokens : Int
  total_tokens : Int
  total_cost : Rat
  request_count : Nat
deriving DecidableEq, Repr

/-- A row of table `monthly_usage` (database.py:68-86). -/
structure MonthlyUsage where
  year_month : String
  user_id : Option String
  provider : String
  model_id : String
  prompt_tokens : Int
  completion_tokens : Int
  total_tokens : Int
  total_cost : Rat
  request_count : Nat
deriving DecidableEq, Repr

/-- SQLite unique-index comparison of two nullable `user_id` values: NULLs are
pairwise distinct, so only two equal non-NULL values conflict. -/
def userIdConflict : Option String → Option String → Bool
  | some a, some b => a == b
  | _, _ => false

/-- Does stored row `r` conflict with the insert for event `e` on the unique
index `uq_session_user_date_model` (database.py:20-26)? -/
def sessionConflict (r : SessionUsage) (e : UsageEvent) : Bool :=
  r.session_id == e.session_id && userIdConflict r.user_id e.user_id &&
    r.usage_date == e.usage_date && r.model_id == e.model_id

/-- The freshly inserted session row (usage_tracker.py:41-55). -/
def sessionInsertRow (e : UsageEvent) : SessionUsage :=
  { session_id := e.session_id
    user_id := e.user_id
    usage_date := e.usage_date
    provider := e.provider
    model_id := e.model_id
    prompt_tokens := e.prompt_tokens
    completion_tokens := e.completion_tokens
    total_tokens := e.total_tokens
    input_cost := e.input_cost
    output_cost := e.output_cost
    total_cost := e.total_cost
    currency := e.currency }

/-- The `on_conflict_do_update` SET clause for the session table
(usage_tracker.py:63-72): accumulate tokens and costs, overwrite
`provider` and `currency`. -/
def sessionMerge (r : SessionUsage) (e : UsageEvent) : SessionUsage :=
  { r with
    provider := e.provider
    prompt_tokens := r.prompt_tokens + e.prompt_tokens
    completion_tokens := r.completion_tokens + e.completion_tokens
    total_tokens := r.total_tokens + e.total_tokens
    input_cost := r.input_cost + e.input_cost
    output_cost := r.output_cost + e.output_cost
    total_cost := r.total_cost + e.total_cost
    currency := e.currency }

/-- Upsert of event `e` into the session table (usage_tracker.py:39-74):
update the conflicting row if one exists, else append a new row. -/
def sessionUpsert (e : UsageEvent) : List SessionUsage → List SessionUsage
  | [] => [sessionInsertRow e]
  | r :: rs =>
    if sessionConflict r e then sessionMerge r e :: rs
    else r :: sessionUpsert e rs

/-- Conflict on unique index `uq_daily_user_model` = (date, user_id, model_id)
(database.py:50, usage_tracker.py:90). -/
def dailyConflict (r : DailyUsage) (e : UsageEvent) : Bool :=
  r.date == e.usage_date && userIdConflict r.user_id e.user_id &&
    r.model_id == e.model_id

/-- The freshly inserted daily row (usage_tracker.py:78-88). -/
def dailyInsertRow (e : UsageEvent) : DailyUsage :=
  { date := e.usage_date
    user_id := e.user_id
    provider := e.provider
    model_id := e.model_id
    prompt_tokens := e.prompt_tokens
    completion_tokens := e.completion_tokens
    total_tokens := e.total_tokens
    total_cost := e.total_cost
    request_count := 1 }

/-- The daily SET clause (usage_tracker.py:91-98). -/
def dailyMerge (r : DailyUsage) (e : UsageEvent) : DailyUsage :=
  { r with
    provider := e.provider
    prompt_tokens := r.prompt_tokens + e.prompt_tokens
    completion_tokens := r.completion_tokens + e.completion_tokens
    total_tokens := r.total_tokens + e.total_tokens
    total_cost := r.total_cost + e.total_cost
    request_count := r.request_count + 1 }

/-- Upsert of event `e` into the daily table (usage_tracker.py:76-100). -/
def dailyUpsert (e : UsageEvent) : List DailyUsage → List DailyUsage
  | [] => [dailyInsertRow e]
  | r :: rs =>
    if dailyConflict r e then dailyMerge r e :: rs
    else r :: dailyUpsert e rs

/-- Conflict on unique index `uq_monthly_user_model` = (year_month, user_id,
model_id) (database.py:71, usage_tracker.py:116). -/
def monthlyConflict (r : MonthlyUsage) (e : UsageEvent) : Bool :=
  r.year_month == e.usage_date.yearMonth && userIdConflict r.user_id e.user_id &&
    r.model_id == e.model_id

/-- The freshly inserted monthly row (usage_tracker.py:104-114). -/
def monthlyInsertRow (e : UsageEvent) : MonthlyUsage :=
  { year_month := e.usage_date.yearMonth
    user_id := e.user_id
    provider := e.provider
    model_id := e.model_id
    prompt_tokens := e.prompt_tokens
    completion_tokens := e.completion_tokens
    total_tokens := e.total_tokens
    total_cost := e.total_cost
    request_count := 1 }

/-- The monthly SET clause (usage_tracker.py:117-124). -/
def monthlyMerge (r : MonthlyUsage) (e : UsageEvent) : MonthlyUsage :=
  { r with
    provider := e.provider
    prompt_tokens := r.prompt_tokens + e.prompt_tokens
    completion_tokens := r.completion_tokens + e.completion_tokens
    total_tokens := r.total_tokens + e.total_tokens
    total_cost := r.total_cost + e.total_cost
    request_count := r.request_count + 1 }

/-- Upsert of event `e` into the monthly table (usage_tracker.py:102-126). -/
def monthlyUpsert (e : UsageEvent) : List MonthlyUsage → List MonthlyUsage
  | [] => [monthlyInsertRow e]
  | r :: rs =>
    if monthlyConflict r e then monthlyMerge r e :: rs
    else r :: monthlyUpsert e rs

/-- The committed state of the three aggregate tables. -/
structure Store where
  sessions : List SessionUsage
  daily : List DailyUsage
  monthly : List MonthlyUsage
deriving DecidableEq, Repr

/-- The empty store (all three tables empty). -/
def Store.empty : Store :=
  { sessions := [], daily := [], monthly := [] }

/-- The successful path of `track_usage` (usage_tracker.py:38-128): the three
upserts followed by commit. -/
def trackUsage (e : UsageEvent) (st : Store) : Store :=
  { sessions := sessionUpsert e st.sessions
    daily := dailyUpsert e st.daily
    monthly := monthlyUpsert e st.monthly }

/-- Replay a list of events through `track_usage`, starting from the empty
store. -/
def replay (es : List UsageEvent) : Store :=
  es.foldl (fun st e => trackUsage e st) Store.empty

/-! ## Transactional wrapper

`track_usage` stages the three upserts on one DB session and commits at the
end; any exception triggers `rollback()` and re-raises
(usage_tracker.py:38-131).  `TxFail` names the step at which a storage failure
is injected; the function returns the committed store visible afterwards plus
a success flag (`false` = a StorageError was raised to the caller). -/

/-- A point at which the transaction can fail: one of the three staged writes,
or the final commit. -/
inductive TxFail where
  | sessionWrite
  | dailyWrite
  | monthlyWrite
  | commit
deriving DecidableEq, Repr

/-- `track_usage` with an injected failure point.  Staged writes mutate a
transaction-local copy; only `commit` publishes it, and any failure rolls the
committed state back to `st` (usage_tracker.py:128-131). -/
def trackUsageTx (failAt : Option TxFail) (e : UsageEvent) (st : Store) :
    Store × Bool :=
  if failAt = some TxFail.sessionWrite then (st, false) else
  let staged1 := { st with sessions := sessionUpsert e st.sessions }
  if failAt = some TxFail.dailyWrite then (st, false) else
  let staged2 := { staged1 with daily := dailyUpsert e staged1.daily }
  if failAt = some TxFail.monthlyWrite then (st, false) else
  let staged3 := { staged2 with monthly := monthlyUpsert e staged2.monthly }
  if failAt = some TxFail.commit then (st, false) else
  (staged3, true)

/-! ## Query layer (usage_tracker.py:137-266)

SQL `ORDER BY` is modelled by a stable insertion sort on a lexicographic key;
a descending column contributes an `OrderDual` component.  SQLite sorts NULL
before every string under ascending order, which `WithBot String` mirrors
(`⊥` first).  An SQL equality filter `col == v` never matches a NULL column
value. -/

/-- Python truthiness of an `Optional[str]` filter argument: `None` and the
empty string are falsy, so only a nonempty string activates the filter. -/
def strFilterActive : Option String → Bool
  | none => false
  | some s => !s.isEmpty

/-- SQL `user_id == u` on a nullable column: NULL matches nothing. -/
def userIdMatches (ru : Option String) (u : String) : Bool :=
  match ru with
  | some s => s == u
  | none => false

/-- `user_id` as an element of `WithBot String`: NULL sorts below every
string, as in SQLite ascending order. -/
def userSortKey : Option String → WithBot String
  | none => ⊥
  | some s => (s : WithBot String)

/-- Sort key of `ORDER BY date DESC, user_id, model_id, provider`
(usage_tracker.py:208-213). -/
def dailySortKey (r : DailyUsage) :
    Lex ((OrderDual Nat) × Lex ((WithBot String) × Lex (String × String))) :=
  toLex (OrderDual.toDual r.date.key,
    toLex (userSortKey r.user_id, toLex (r.model_id, r.provider)))

/-- The row order used by the daily queries. -/
def dailyRowLe (a b : DailyUsage) : Prop :=
  dailySortKey a ≤ dailySortKey b

instance : DecidableRel dailyRowLe := fun a b =>
  inferInstanceAs (Decidable (dailySortKey a ≤ dailySortKey b))

instance : IsTotal DailyUsage dailyRowLe :=
  ⟨fun a b => le_total (dailySortKey a) (dailySortKey b)⟩

instance : IsTrans DailyUsage dailyRowLe :=
  ⟨fun _ _ _ hab hbc => le_trans hab hbc⟩

/-- The optional filter arguments of `get_all_users_daily_usage`
(usage_tracker.py:188-195). -/
structure DailyFilters where
  start_date : Option Date
  end_date : Option Date
  provider : Option String
  model_id : Option String
  user_id : Option String
deriving DecidableEq, Repr

/-- The WHERE clause built on usage_tracker.py:197-207, as a row predicate.
Each `if arg:` guard is Python truthiness; a `date` object is always truthy,
so the date guards reduce to presence. -/
def dailyRowPass (f : DailyFilters) (r : DailyUsage) : Bool :=
  (match f.start_date with
   | none => true
   | some d => Date.leb d r.date) &&
  (match f.end_date with
   | none => true
   | some d => Date.leb r.date d) &&
  (if strFilterActive f.provider then r.provider == f.provider.getD "" else true) &&
  (if strFilterActive f.model_id then r.model_id == f.model_id.getD "" else true) &&
  (if strFilterActive f.user_id then userIdMatches r.user_id (f.user_id.getD "") else true)

/-- `get_all_users_daily_usage` (usage_tracker.py:188-215): filter the daily
table, then sort by date descending with user/model/provider tie-breaks. -/
def get_all_users_daily_usage (st : Store) (f : DailyFilters) : List DailyUsage :=
  List.insertionSort dailyRowLe (st.daily.filter (dailyRowPass f))

/-- `get_user_daily_usage` (usage_tracker.py:169-185): delegate with the user
filter set. -/
def get_user_daily_usage (st : Store) (u : String)
    (start_date end_date : Option Date) (provider model_id : Option String) :
    List DailyUsage :=
  get_all_users_daily_usage st
    { start_date := start_date
      end_date := end_date
      provider := provider
      model_id := model_id
      user_id := some u }

/-- `get_daily_usage` (usage_tracker.py:144-166): a present `usage_date`
becomes a one-day range. -/
def get_daily_usage (st : Store) (usage_date : Option Date)
    (provider model_id user_id : Option String) : List DailyUsage :=
  match usage_date with
  | some d =>
    get_all_users_daily_usage st
      { start_date := some d
        end_date := some d
        provider := provider
        model_id := model_id
        user_id := user_id }
  | none =>
    get_all_users_daily_usage st
      { start_date := none
        end_date := none
        provider := provider
        model_id := model_id
        user_id := user_id }

/-- Sort key of `ORDER BY year_month DESC, provider, model_id`
(usage_tracker.py:263). -/
def monthlySortKey (r : MonthlyUsage) :
    Lex ((OrderDual String) × Lex (String × String)) :=
  toLex (OrderDual.toDual r.year_month, toLex (r.provider, r.model_id))

/-- The row order used by the monthly query. -/
def monthlyRowLe (a b : MonthlyUsage) : Prop :=
  monthlySortKey a ≤ monthlySortKey b

instance : DecidableRel monthlyRowLe := fun a b =>
  inferInstanceAs (Decidable (monthlySortKey a ≤ monthlySortKey b))

instance : IsTotal MonthlyUsage monthlyRowLe :=
  ⟨fun a b => le_total (monthlySortKey a) (monthlySortKey b)⟩

instance : IsTrans MonthlyUsage monthlyRowLe :=
  ⟨fun _ _ _ hab hbc => le_trans hab hbc⟩

/-- The optional filter arguments of `get_monthly_usage`
(usage_tracker.py:246-252). -/
structure MonthlyFilters where
  year_month : Option String
  provider : Option String
  model_id : Option String
  user_id : Option String
deriving DecidableEq, Repr

/-- The WHERE clause of usage_tracker.py:255-262; every guard is Python
truthiness on an `Optional[str]`. -/
def monthlyRowPass (f : MonthlyFilters) (r : MonthlyUsage) : Bool :=
  (if strFilterActive f.year_month then r.year_month == f.year_month.getD "" else true) &&
  (if strFilterActive f.provider then r.provider == f.provider.getD "" else true) &&
  (if strFilterActive f.model_id then r.model_id == f.model_id.getD "" else true) &&
  (if strFilterActive f.user_id then userIdMatches r.user_id (f.user_id.getD "") else true)

/-- `get_monthly_usage` (usage_tracker.py:246-265). -/
def get_monthly_usage (st : Store) (f : MonthlyFilters) : List MonthlyUsage :=
  List.insertionSort monthlyRowLe (st.monthly.filter (monthlyRowPass f))

/-- Sort key of `ORDER BY usage_date DESC, session_id, model_id, provider`
(usage_tracker.py:236-241). -/
def sessionSortKey (r : SessionUsage) :
    Lex ((OrderDual Nat) × Lex (String × Lex (String × String))) :=
  toLex (OrderDual.toDual r.usage_date.key,
    toLex (r.session_id, toLex (r.model_id, r.provider)))

/-- The row order used by `get_user_session_usage`. -/
def sessionRowLe (a b : SessionUsage) : Prop :=
  sessionSortKey a ≤ sessionSortKey b

instance : DecidableRel sessionRowLe := fun a b =>
  inferInstanceAs (Decidable (sessionSortKey a ≤ sessionSortKey b))

instance : IsTotal SessionUsage sessionRowLe :=
  ⟨fun a b => le_total (sessionSortKey a) (sessionSortKey b)⟩

instance : IsTrans SessionUsage sessionRowLe :=
  ⟨fun _ _ _ hab hbc => le_trans hab hbc⟩

/-- The WHERE clause of `get_user_session_usage` (usage_tracker.py:227-235):
the user filter is applied unconditionally, the rest by truthiness. -/
def sessionRowPass (u : String) (start_date end_date : Option Date)
    (provider model_id : Option String) (r : SessionUsage) : Bool :=
  userIdMatches r.user_id u &&
  (match start_date with
   | none => true
   | some d => Date.leb d r.usage_date) &&
  (match end_date with
   | none => true
   | some d => Date.leb r.usage_date d) &&
  (if strFilterActive provider then r.provider == provider.getD "" else true) &&
  (if strFilterActive model_id then r.model_id == model_id.getD "" else true)

/-- `get_user_session_usage` (usage_tracker.py:218-243). -/
def get_user_session_usage (st : Store) (u : String)
    (start_date end_date : Option Date) (provider model_id : Option String) :
    List SessionUsage :=
  List.insertionSort sessionRowLe
    (st.sessions.filter (sessionRowPass u start_date end_date provider model_id))

/-! ## The full-history endpoint (routers/usage.py:96-162) -/

/-- Token totals (`UsageBreakdown` of models/schemas.py). -/
structure UsageBreakdown where
  prompt_tokens : Int
  completion_tokens : Int
  total_tokens : Int
deriving DecidableEq, Repr

/-- Python `round(x, 6)`, modelled on exact rationals.  (CPython rounds
half-to-even on binary floats; the claims under study never hit a tie, and
this model keeps the 6-decimal truncation behaviour.) -/
def round6 (x : Rat) : Rat :=
  (round (x * 1000000) : Int) / 1000000

/-- The composite answer of `get_full_user_usage`; per-row display rounding of
the echoed lists is not modelled (the rows are returned as stored). -/
structure UserUsageHistory where
  user_id : String
  totals : UsageBreakdown
  total_cost : Rat
  daily : List DailyUsage
  monthly : List MonthlyUsage
  sessions : List SessionUsage
deriving DecidableEq, Repr

/-- `get_full_user_usage` (routers/usage.py:97-162): fetch the user's daily,
monthly and session rows, and compute the totals by summing the **daily**
entries (routers/usage.py:106-112). -/
def get_full_user_usage (st : Store) (u : String) : UserUsageHistory :=
  let daily_entries := get_user_daily_usage st u none none none none
  let monthly_entries :=
    get_monthly_usage st
      { year_month := none, provider := none, model_id := none, user_id := some u }
  let session_entries := get_user_session_usage st u none none none none
  { user_id := u
    totals :=
      { prompt_tokens := (daily_entries.map DailyUsage.prompt_tokens).sum
        completion_tokens := (daily_entries.map DailyUsage.completion_tokens).sum
        total_tokens := (daily_entries.map DailyUsage.total_tokens).sum }
    total_cost := round6 (daily_entries.map DailyUsage.total_cost).sum
    daily := daily_entries
    monthly := monthly_entries
    sessions := session_entries }

/-! ## Validated query as the spec words it (for comparison)

Section 7 of the spec says a date-range filter whose start is after its end is
rejected with a `ValidationError` before the store is touched.  No code in the
repository performs that check; the definition below follows the spec's words
so the code's behaviour can be compared against it. -/

/-- The aggregation key of a session row: the columns of
`uq_session_user_date_model`. -/
def SessionUsage.key (r : SessionUsage) : String × Option String × Date × String :=
  (r.session_id, r.user_id, r.usage_date, r.model_id)

/-- The session-table key derived from an event. -/
def UsageEvent.sessionKey (e : UsageEvent) : String × Option String × Date × String :=
  (e.session_id, e.user_id, e.usage_date, e.model_id)

/-- The aggregation key of a daily row: the columns of `uq_daily_user_model`. -/
def DailyUsage.key (r : DailyUsage) : Date × Option String × String :=
  (r.date, r.user_id, r.model_id)

/-- The daily-table key derived from an event. -/
def UsageEvent.dailyKey (e : UsageEvent) : Date × Option String × String :=
  (e.usage_date, e.user_id, e.model_id)

/-- The aggregation key of a monthly row: the columns of
`uq_monthly_user_model`. -/
def MonthlyUsage.key (r : MonthlyUsage) : String × Option String × String :=
  (r.year_month, r.user_id, r.model_id)

/-- The monthly-table key derived from an event. -/
def UsageEvent.monthlyKey (e : UsageEvent) : String × Option String × String :=
  (e.usage_date.yearMonth, e.user_id, e.model_id)

/-- The spec's ValidationError (spec §7). -/
inductive ValidationError where
  | startAfterEnd
deriving DecidableEq, Repr

/-- The daily query as the spec describes it: reject a malformed date range
(start after end) with `ValidationError` before touching the store, otherwise
behave as the code does.  This definition follows the spec's words, not the
source. -/
def specValidatedDailyQuery (st : Store) (f : DailyFilters) :
    Except ValidationError (List DailyUsage) :=
  match f.start_date, f.end_date with
  | some ds, some de =>
    if ds.key ≤ de.key then Except.ok (get_all_users_daily_usage st f)
    else Except.error ValidationError.startAfterEnd
  | _, _ => Except.ok (get_all_users_daily_usage st f)

/-! ## Concrete data used by witnesses and counterexamples -/

/-- A concrete event: user "user-42", model "gpt-4o", 2024-05-01. -/
def eventMay1 : UsageEvent :=
  { session_id := "session-a"
    user_id := some "user-42"
    provider := "openai"
    model_id := "gpt-4o"
    prompt_tokens := 30
    completion_tokens := 20
    input_cost := 0
    output_cost := 0
    total_cost := 1
    currency := "USD"
    usage_date := ⟨2024, 5, 1⟩ }

/-- A date-range filter whose start (2024-05-02) is after its end
(2024-05-01). -/
def badRangeFilters : DailyFilters :=
  { start_date := some ⟨2024, 5, 2⟩
    end_date := some ⟨2024, 5, 1⟩
    provider := none
    model_id := none
    user_id := none }

/-- A concrete event with an absent user identifier. -/
def nullUserEvent : UsageEvent :=
  { session_id := "session-1"
    user_id := none
    provider := "openai"
    model_id := "gpt-4"
    prompt_tokens := 50
    completion_tokens := 10
    input_cost := 0
    output_cost := 0
    total_cost := 1
    currency := "USD"
    usage_date := ⟨2024, 5, 1⟩ }

/-- First event of the spec's merge example (prompt 50, completion 10). -/
def sharedKeyEventA : UsageEvent :=
  { session_id := "session-1"
    user_id := some "user-1"
    provider := "openai"
    model_id := "gpt-4"
    prompt_tokens := 50
    completion_tokens := 10
    input_cost := 0
    output_cost := 0
    total_cost := 1
    currency := "USD"
    usage_date := ⟨2024, 5, 1⟩ }

/-- Second event sharing the key (prompt 20, completion 5). -/
def sharedKeyEventB : UsageEvent :=
  { sharedKeyEventA with
    prompt_tokens := 20
    completion_tokens := 5
    total_cost := 2 }

/-- A third event on a different day with a different model (claude-3 on
2024-05-02). -/
def eventMay2 : UsageEvent :=
  { session_id := "session-b"
    user_id := some "user-42"
    provider := "anthropic"
    model_id := "claude-3"
    prompt_tokens := 40
    completion_tokens := 10
    input_cost := 0
    output_cost := 0
    total_cost := 1
    currency := "USD"
    usage_date := ⟨2024, 5, 2⟩ }

/-- Number of events in a stream carrying a given daily key. -/
def dailyKeyCount (es : List UsageEvent) (k : Date × Option String × String) : Nat :=
  (es.filter (fun e => decide (e.dailyKey = k))).length

/-- Sum of `prompt_tokens + completion_tokens` of the events carrying a given
daily key. -/
def dailyKeyTokens (es : List UsageEvent) (k : Date × Option String × String) : Int :=
  ((es.filter (fun e => decide (e.dailyKey = k))).map UsageEvent.total_tokens).sum

/-- Number of events in a stream carrying a given monthly key. -/
def monthlyKeyCount (es : List UsageEvent) (k : String × Option String × String) : Nat :=
  (es.filter (fun e => decide (e.monthlyKey = k))).length

/-- Sum of `prompt_tokens + completion_tokens` of the events carrying a given
monthly key. -/
def monthlyKeyTokens (es : List UsageEvent) (k : String × Option String × String) : Int :=
  ((es.filter (fun e => decide (e.monthlyKey = k))).map UsageEvent.total_tokens).sum

/-! ## Basic lemmas about conflicts and upserts -/

lemma userIdConflict_iff (a b : Option String) :
    userIdConflict a b = true ↔ a = b ∧ a ≠ none := by
  cases a <;> cases b <;> simp [userIdConflict]

lemma sessionConflict_iff (r : SessionUsage) (e : UsageEvent) :
    sessionConflict r e = true ↔ r.key = e.sessionKey ∧ r.user_id ≠ none := by
  simp only [sessionConflict, Bool.and_eq_true, beq_iff_eq, userIdConflict_iff,
    SessionUsage.key, UsageEvent.sessionKey, Prod.mk.injEq]
  tauto

lemma dailyConflict_iff (r : DailyUsage) (e : UsageEvent) :
    dailyConflict r e = true ↔ r.key = e.dailyKey ∧ r.user_id ≠ none := by
  simp only [dailyConflict, Bool.and_eq_true, beq_iff_eq, userIdConflict_iff,
    DailyUsage.key, UsageEvent.dailyKey, Prod.mk.injEq]
  tauto

lemma monthlyConflict_iff (r : MonthlyUsage) (e : UsageEvent) :
    monthlyConflict r e = true ↔ r.key = e.monthlyKey ∧ r.user_id ≠ none := by
  simp only [monthlyConflict, Bool.and_eq_true, beq_iff_eq, userIdConflict_iff,
    MonthlyUsage.key, UsageEvent.monthlyKey, Prod.mk.injEq]
  tauto

lemma sessionMerge_key (r : SessionUsage) (e : UsageEvent) :
    (sessionMerge r e).key = r.key := rfl

lemma dailyMerge_key (r : DailyUsage) (e : UsageEvent) :
    (dailyMerge r e).key = r.key := rfl

lemma monthlyMerge_key (r : MonthlyUsage) (e : UsageEvent) :
    (monthlyMerge r e).key = r.key := rfl

/-- An additive projection of session rows grows by a fixed contribution `c`
under an upsert, whether the event merges or inserts. -/
lemma sessionUpsert_map_sum {M : Type} [AddCommMonoid M] (f : SessionUsage → M)
    (e : UsageEvent) (c : M)
    (hm : ∀ r, sessionConflict r e = true → f (sessionMerge r e) = f r + c)
    (hi : f (sessionInsertRow e) = c) :
    ∀ l : List SessionUsage, ((sessionUpsert e l).map f).sum = (l.map f).sum + c := by
  intro l
  induction l with
  | nil => simp [sessionUpsert, hi]
  | cons r rs ih =>
    by_cases h : sessionConflict r e = true
    · simp only [sessionUpsert, h, if_true, List.map_cons, List.sum_cons, hm r h]
      rw [add_right_comm]
    · simp only [sessionUpsert, h, if_false, List.map_cons, List.sum_cons, ih,
        add_assoc, Bool.false_eq_true]

/-- Daily analogue of `sessionUpsert_map_sum`. -/
lemma dailyUpsert_map_sum {M : Type} [AddCommMonoid M] (f : DailyUsage → M)
    (e : UsageEvent) (c : M)
    (hm : ∀ r, dailyConflict r e = true → f (dailyMerge r e) = f r + c)
    (hi : f (dailyInsertRow e) = c) :
    ∀ l : List DailyUsage, ((dailyUpsert e l).map f).sum = (l.map f).sum + c := by
  intro l
  induction l with
  | nil => simp [dailyUpsert, hi]
  | cons r rs ih =>
    by_cases h : dailyConflict r e = true
    · simp only [dailyUpsert, h, if_true, List.map_cons, List.sum_cons, hm r h]
      rw [add_right_comm]
    · simp only [dailyUpsert, h, if_false, List.map_cons, List.sum_cons, ih,
        add_assoc, Bool.false_eq_true]

/-- Monthly analogue of `sessionUpsert_map_sum`. -/
lemma monthlyUpsert_map_sum {M : Type} [AddCommMonoid M] (f : MonthlyUsage → M)
    (e : UsageEvent) (c : M)
    (hm : ∀ r, monthlyConflict r e = true → f (monthlyMerge r e) = f r + c)
    (hi : f (monthlyInsertRow e) = c) :
    ∀ l : List MonthlyUsage, ((monthlyUpsert e l).map f).sum = (l.map f).sum + c := by
  intro l
  induction l with
  | nil => simp [monthlyUpsert, hi]
  | cons r rs ih =>
    by_cases h : monthlyConflict r e = true
    · simp only [monthlyUpsert, h, if_true, List.map_cons, List.sum_cons, hm r h]
      rw [add_right_comm]
    · simp only [monthlyUpsert, h, if_false, List.map_cons, List.sum_cons, ih,
        add_assoc, Bool.false_eq_true]

/-- Replaying events from any starting store adds each event's contribution to
an additive projection of the session table. -/
lemma replay_sessions_map_sum {M : Type} [AddCommMonoid M] (f : SessionUsage → M)
    (contrib : UsageEvent → M)
    (hm : ∀ e r, sessionConflict r e = true → f (sessionMerge r e) = f r + contrib e)
    (hi : ∀ e, f (sessionInsertRow e) = contrib e) :
    ∀ (es : List UsageEvent) (st : Store),
      (((es.foldl (fun s e => trackUsage e s) st).sessions.map f).sum
        = (st.sessions.map f).sum + (es.map contrib).sum) := by
  intro es
  induction es with
  | nil => intro st; simp
  | cons e es ih =>
    intro st
    simp only [List.foldl_cons, List.map_cons, List.sum_cons, ih]
    rw [show (trackUsage e st).sessions = sessionUpsert e st.sessions from rfl]
    rw [sessionUpsert_map_sum f e (contrib e) (hm e) (hi e), add_assoc]

/-- Daily analogue of `replay_sessions_map_sum`. -/
lemma replay_daily_map_sum {M : Type} [AddCommMonoid M] (f : DailyUsage → M)
    (contrib : UsageEvent → M)
    (hm : ∀ e r, dailyConflict r e = true → f (dailyMerge r e) = f r + contrib e)
    (hi : ∀ e, f (dailyInsertRow e) = contrib e) :
    ∀ (es : List UsageEvent) (st : Store),
      (((es.foldl (fun s e => trackUsage e s) st).daily.map f).sum
        = (st.daily.map f).sum + (es.map contrib).sum) := by
  intro es
  induction es with
  | nil => intro st; simp
  | cons e es ih =>
    intro st
    simp only [List.foldl_cons, List.map_cons, List.sum_cons, ih]
    rw [show (trackUsage e st).daily = dailyUpsert e st.daily from rfl]
    rw [dailyUpsert_map_sum f e (contrib e) (hm e) (hi e), add_assoc]

/-- Monthly analogue of `replay_sessions_map_sum`. -/
lemma replay_monthly_map_sum {M : Type} [AddCommMonoid M] (f : MonthlyUsage → M)
    (contrib : UsageEvent → M)
    (hm : ∀ e r, monthlyConflict r e = true → f (monthlyMerge r e) = f r + contrib e)
    (hi : ∀ e, f (monthlyInsertRow e) = contrib e) :
    ∀ (es : List UsageEvent) (st : Store),
      (((es.foldl (fun s e => trackUsage e s) st).monthly.map f).sum
        = (st.monthly.map f).sum + (es.map contrib).sum) := by
  intro es
  induction es with
  | nil => intro st; simp
  | cons e es ih =>
    intro st
    simp only [List.foldl_cons, List.map_cons, List.sum_cons, ih]
    rw [show (trackUsage e st).monthly = monthlyUpsert e st.monthly from rfl]
    rw [monthlyUpsert_map_sum f e (contrib e) (hm e) (hi e), add_assoc]

/-- A pointwise property of session rows preserved by merge and enjoyed by
freshly inserted rows holds for every row of an upsert result. -/
lemma sessionUpsert_forall (P : SessionUsage → Prop) (e : UsageEvent)
    (hm : ∀ r, sessionConflict r e = true → P r → P (sessionMerge r e))
    (hi : P (sessionInsertRow e)) :
    ∀ l : List SessionUsage, (∀ r ∈ l, P r) → ∀ r ∈ sessionUpsert e l, P r := by
  intro l
  induction l with
  | nil => intro _ r hr; simp only [sessionUpsert, List.mem_singleton] at hr; exact hr ▸ hi
  | cons a rs ih =>
    intro hl r hr
    by_cases h : sessionConflict a e = true
    · simp only [sessionUpsert, h, if_true, List.mem_cons] at hr
      rcases hr with hr | hr
      · exact hr ▸ hm a h (hl a (List.mem_cons_self a rs))
      · exact hl r (List.mem_cons_of_mem a hr)
    · simp only [sessionUpsert, h, if_false, List.mem_cons, Bool.false_eq_true] at hr
      rcases hr with hr | hr
      · exact hr ▸ hl a (List.mem_cons_self a rs)
      · exact ih (fun x hx => hl x (List.mem_cons_of_mem a hx)) r hr

/-- Daily analogue of `sessionUpsert_forall`. -/
lemma dailyUpsert_forall (P : DailyUsage → Prop) (e : UsageEvent)
    (hm : ∀ r, dailyConflict r e = true → P r → P (dailyMerge r e))
    (hi : P (dailyInsertRow e)) :
    ∀ l : List DailyUsage, (∀ r ∈ l, P r) → ∀ r ∈ dailyUpsert e l, P r := by
  intro l
  induction l with
  | nil => intro _ r hr; simp only [dailyUpsert, List.mem_singleton] at hr; exact hr ▸ hi
  | cons a rs ih =>
    intro hl r hr
    by_cases h : dailyConflict a e = true
    · simp only [dailyUpsert, h, if_true, List.mem_cons] at hr
      rcases hr with hr | hr
      · exact hr ▸ hm a h (hl a (List.mem_cons_self a rs))
      · exact hl r (List.mem_cons_of_mem a hr)
    · simp only [dailyUpsert, h, if_false, List.mem_cons, Bool.false_eq_true] at hr
      rcases hr with hr | hr
      · exact hr ▸ hl a (List.mem_cons_self a rs)
      · exact ih (fun x hx => hl x (List.mem_cons_of_mem a hx)) r hr

/-- Monthly analogue of `sessionUpsert_forall`. -/
lemma monthlyUpsert_forall (P : MonthlyUsage → Prop) (e : UsageEvent)
    (hm : ∀ r, monthlyConflict r e = true → P r → P (monthlyMerge r e))
    (hi : P (monthlyInsertRow e)) :
    ∀ l : List MonthlyUsage, (∀ r ∈ l, P r) → ∀ r ∈ monthlyUpsert e l, P r := by
  intro l
  induction l with
  | nil => intro _ r hr; simp only [monthlyUpsert, List.mem_singleton] at hr; exact hr ▸ hi
  | cons a rs ih =>
    intro hl r hr
    by_cases h : monthlyConflict a e = true
    · simp only [monthlyUpsert, h, if_true, List.mem_cons] at hr
      rcases hr with hr | hr
      · exact hr ▸ hm a h (hl a (List.mem_cons_self a rs))
      · exact hl r (List.mem_cons_of_mem a hr)
    · simp only [monthlyUpsert, h, if_false, List.mem_cons, Bool.false_eq_true] at hr
      rcases hr with hr | hr
      · exact hr ▸ hl a (List.mem_cons_self a rs)
      · exact ih (fun x hx => hl x (List.mem_cons_of_mem a hx)) r hr

/-- Pointwise row properties propagate through a whole replay, on all three
tables at once. -/
lemma replay_forall (P : SessionUsage → Prop) (Q : DailyUsage → Prop)
    (R : MonthlyUsage → Prop)
    (hmP : ∀ e r, sessionConflict r e = true → P r → P (sessionMerge r e))
    (hiP : ∀ e, P (sessionInsertRow e))
    (hmQ : ∀ e r, dailyConflict r e = true → Q r → Q (dailyMerge r e))
    (hiQ : ∀ e, Q (dailyInsertRow e))
    (hmR : ∀ e r, monthlyConflict r e = true → R r → R (monthlyMerge r e))
    (hiR : ∀ e, R (monthlyInsertRow e)) :
    ∀ (es : List UsageEvent) (st : Store),
      (∀ r ∈ st.sessions, P r) → (∀ r ∈ st.daily, Q r) → (∀ r ∈ st.monthly, R r) →
      (∀ r ∈ (es.foldl (fun s e => trackUsage e s) st).sessions, P r)
        ∧ (∀ r ∈ (es.foldl (fun s e => trackUsage e s) st).daily, Q r)
        ∧ (∀ r ∈ (es.foldl (fun s e => trackUsage e s) st).monthly, R r) := by
  intro es
  induction es with
  | nil => intro st h1 h2 h3; exact ⟨h1, h2, h3⟩
  | cons e es ih =>
    intro st h1 h2 h3
    simp only [List.foldl_cons]
    exact ih (trackUsage e st)
      (sessionUpsert_forall P e (hmP e) (hiP e) st.sessions h1)
      (dailyUpsert_forall Q e (hmQ e) (hiQ e) st.daily h2)
      (monthlyUpsert_forall R e (hmR e) (hiR e) st.monthly h3)

/-! ## Claim theorems -/

/-- C2: `track_usage` is atomic across the three aggregate views: with no
failure the three merge-or-inserts are committed together, and a failure
injected at any of the four steps (the three staged writes or the commit)
leaves the committed store exactly as it was, surfacing the error to the
caller; no partial aggregate state is observably persisted. -/
theorem claim2_track_usage_atomicity (failAt : Option TxFail) (e : UsageEvent)
    (st : Store) :
    trackUsageTx failAt e st
      = if failAt = none then (trackUsage e st, true) else (st, false) := by
  cases failAt with
  | none => rfl
  | some f => cases f <;> rfl

/-- C3: after any sequence of successful `track_usage` calls starting from the
empty store, the sums of `total_tokens` and of `total_cost` over the session,
daily and monthly tables are pairwise equal, each equalling the corresponding
sum over the submitted events. -/
theorem claim3_three_views_reflect_all_events (es : List UsageEvent) :
    (((replay es).sessions.map SessionUsage.total_tokens).sum
        = (es.map UsageEvent.total_tokens).sum
      ∧ ((replay es).daily.map DailyUsage.total_tokens).sum
        = (es.map UsageEvent.total_tokens).sum
      ∧ ((replay es).monthly.map MonthlyUsage.total_tokens).sum
        = (es.map UsageEvent.total_tokens).sum)
    ∧ (((replay es).sessions.map SessionUsage.total_cost).sum
        = (es.map UsageEvent.total_cost).sum
      ∧ ((replay es).daily.map DailyUsage.total_cost).sum
        = (es.map UsageEvent.total_cost).sum
      ∧ ((replay es).monthly.map MonthlyUsage.total_cost).sum
        = (es.map UsageEvent.total_cost).sum) := by
  have hs1 := replay_sessions_map_sum SessionUsage.total_tokens UsageEvent.total_tokens
    (fun e r _ => rfl) (fun e => rfl) es Store.empty
  have hd1 := replay_daily_map_sum DailyUsage.total_tokens UsageEvent.total_tokens
    (fun e r _ => rfl) (fun e => rfl) es Store.empty
  have hm1 := replay_monthly_map_sum MonthlyUsage.total_tokens UsageEvent.total_tokens
    (fun e r _ => rfl) (fun e => rfl) es Store.empty
  have hs2 := replay_sessions_map_sum SessionUsage.total_cost UsageEvent.total_cost
    (fun e r _ => rfl) (fun e => rfl) es Store.empty
  have hd2 := replay_daily_map_sum DailyUsage.total_cost UsageEvent.total_cost
    (fun e r _ => rfl) (fun e => rfl) es Store.empty
  have hm2 := replay_monthly_map_sum MonthlyUsage.total_cost UsageEvent.total_cost
    (fun e r _ => rfl) (fun e => rfl) es Store.empty
  simp only [Store.empty, List.map_nil, List.sum_nil, zero_add] at hs1 hd1 hm1 hs2 hd2 hm2
  exact ⟨⟨hs1, hd1, hm1⟩, ⟨hs2, hd2, hm2⟩⟩

/-- C9: in every store reachable by replaying events from the empty store,
every session, daily and monthly row satisfies
`total_tokens = prompt_tokens + completion_tokens`: the insert path writes the
sum and the merge path adds the same per-event sum to all three fields. -/
theorem claim9_total_tokens_coherent (es : List UsageEvent) :
    ((replay es).sessions.all
        (fun r => r.total_tokens == r.prompt_tokens + r.completion_tokens) = true)
    ∧ ((replay es).daily.all
        (fun r => r.total_tokens == r.prompt_tokens + r.completion_tokens) = true)
    ∧ ((replay es).monthly.all
        (fun r => r.total_tokens == r.prompt_tokens + r.completion_tokens) = true) := by
  have h := replay_forall
    (fun r => r.total_tokens = r.prompt_tokens + r.completion_tokens)
    (fun r => r.total_tokens = r.prompt_tokens + r.completion_tokens)
    (fun r => r.total_tokens = r.prompt_tokens + r.completion_tokens)
    (fun e r _ hr => by
      simp only [sessionMerge, UsageEvent.total_tokens, hr]; ring)
    (fun e => rfl)
    (fun e r _ hr => by
      simp only [dailyMerge, UsageEvent.total_tokens, hr]; ring)
    (fun e => rfl)
    (fun e r _ hr => by
      simp only [monthlyMerge, UsageEvent.total_tokens, hr]; ring)
    (fun e => rfl)
    es Store.empty (by intro r hr; cases hr) (by intro r hr; cases hr)
    (by intro r hr; cases hr)
  refine ⟨?_, ?_, ?_⟩
  · rw [List.all_eq_true]
    intro r hr
    exact beq_iff_eq.mpr (h.1 r hr)
  · rw [List.all_eq_true]
    intro r hr
    exact beq_iff_eq.mpr (h.2.1 r hr)
  · rw [List.all_eq_true]
    intro r hr
    exact beq_iff_eq.mpr (h.2.2 r hr)

/-! ## Sorting facts for the query layer -/

/-- The daily row order implies non-increasing dates (the first, descending,
component of the lexicographic key dominates). -/
lemma dailyRowLe_date_ge {a b : DailyUsage} (h : dailyRowLe a b) :
    b.date.key ≤ a.date.key := by
  unfold dailyRowLe dailySortKey at h
  rcases (Prod.Lex.le_iff _ _).mp h with h1 | ⟨h1, _⟩
  · exact le_of_lt h1
  · exact le_of_eq (congrArg OrderDual.ofDual h1).symm

/-- `get_all_users_daily_usage` returns a list sorted by the daily row order
and a permutation of the rows passing its filters. -/
lemma get_all_users_daily_usage_sorted (st : Store) (f : DailyFilters) :
    (get_all_users_daily_usage st f).Sorted dailyRowLe
      ∧ (get_all_users_daily_usage st f).Perm (st.daily.filter (dailyRowPass f)) :=
  ⟨List.sorted_insertionSort dailyRowLe _, List.perm_insertionSort dailyRowLe _⟩

/-- C8: every list returned by `get_daily_usage`, `get_user_daily_usage` and
`get_all_users_daily_usage` is sorted by date descending with ties broken by
user, then model, then provider (the total order `dailyRowLe` on the
lexicographic sort key); consequently the dates along each result are
non-increasing, so a 2024-05-02 row appears before a 2024-05-01 row.  Each
result is a permutation of the rows passing the filters, determined by the
(functional, hence deterministic) stable insertion sort. -/
theorem claim8_daily_queries_sorted (st : Store) (f : DailyFilters) (u : String)
    (sd ed : Option Date) (p m uid : Option String) (d : Option Date) :
    ((get_all_users_daily_usage st f).Sorted dailyRowLe
      ∧ (get_all_users_daily_usage st f).Pairwise (fun a b => b.date.key ≤ a.date.key))
    ∧ ((get_user_daily_usage st u sd ed p m).Sorted dailyRowLe
      ∧ (get_user_daily_usage st u sd ed p m).Pairwise
          (fun a b => b.date.key ≤ a.date.key))
    ∧ ((get_daily_usage st d p m uid).Sorted dailyRowLe
      ∧ (get_daily_usage st d p m uid).Pairwise
          (fun a b => b.date.key ≤ a.date.key)) := by
  have base : ∀ g : DailyFilters,
      (get_all_users_daily_usage st g).Sorted dailyRowLe
        ∧ (get_all_users_daily_usage st g).Pairwise
            (fun a b => b.date.key ≤ a.date.key) := by
    intro g
    have hs := (get_all_users_daily_usage_sorted st g).1
    exact ⟨hs, List.Pairwise.imp (fun h => dailyRowLe_date_ge h) hs⟩
  refine ⟨base f, ?_, ?_⟩
  · exact base _
  · cases d with
    | none => exact base _
    | some d0 => exact base _

/-! ## Truthiness of string filters -/

lemma strFilterActive_none : strFilterActive none = false := rfl

lemma strFilterActive_some_empty : strFilterActive (some "") = false := rfl

/-- C10: for the daily and monthly query operations, an empty-string
`provider`, `model_id` or `user_id` filter behaves exactly like an omitted
filter: Python tests presence by truthiness (`if provider:`), and `""` is
falsy, so no constraint is applied and the result is identical to the
`None` case. -/
theorem claim10_empty_string_filters_ignored (st : Store) (f : DailyFilters)
    (g : MonthlyFilters) :
    (get_all_users_daily_usage st { f with provider := some "" }
        = get_all_users_daily_usage st { f with provider := none }
      ∧ get_all_users_daily_usage st { f with model_id := some "" }
        = get_all_users_daily_usage st { f with model_id := none }
      ∧ get_all_users_daily_usage st { f with user_id := some "" }
        = get_all_users_daily_usage st { f with user_id := none })
    ∧ (get_monthly_usage st { g with provider := some "" }
        = get_monthly_usage st { g with provider := none }
      ∧ get_monthly_usage st { g with model_id := some "" }
        = get_monthly_usage st { g with model_id := none }
      ∧ get_monthly_usage st { g with user_id := some "" }
        = get_monthly_usage st { g with user_id := none }) := by
  have hd : ∀ f1 f2 : DailyFilters, dailyRowPass f1 = dailyRowPass f2 →
      get_all_users_daily_usage st f1 = get_all_users_daily_usage st f2 := by
    intro f1 f2 h
    simp only [get_all_users_daily_usage, h]
  have hm : ∀ g1 g2 : MonthlyFilters, monthlyRowPass g1 = monthlyRowPass g2 →
      get_monthly_usage st g1 = get_monthly_usage st g2 := by
    intro g1 g2 h
    simp only [get_monthly_usage, h]
  refine ⟨⟨hd _ _ ?_, hd _ _ ?_, hd _ _ ?_⟩, ⟨hm _ _ ?_, hm _ _ ?_, hm _ _ ?_⟩⟩ <;>
    funext r <;>
    simp [dailyRowPass, monthlyRowPass, strFilterActive_some_empty, strFilterActive_none]



/-- C6 fails on the code: no validation exists anywhere in the query path.  On
a store holding a 2024-05-01 row, the query with start 2024-05-02 and end
2024-05-01 is executed against the store and returns the empty list, whereas
the claimed behaviour (`specValidatedDailyQuery`, written from the spec's
words) rejects it with a ValidationError; the two observably differ. -/
theorem claim6_counterexample_no_validation :
    specValidatedDailyQuery (replay [eventMay1]) badRangeFilters
        = Except.error ValidationError.startAfterEnd
      ∧ get_all_users_daily_usage (replay [eventMay1]) badRangeFilters = []
      ∧ Except.ok (get_all_users_daily_usage (replay [eventMay1]) badRangeFilters)
          ≠ specValidatedDailyQuery (replay [eventMay1]) badRangeFilters := by
  refine ⟨rfl, by decide, ?_⟩
  intro h
  rw [show specValidatedDailyQuery (replay [eventMay1]) badRangeFilters
      = Except.error ValidationError.startAfterEnd from rfl] at h
  exact Except.noConfusion h

/-- C6 amended: a date-range filter whose start date is after its end date is
not rejected — the code performs no filter validation — instead both bounds
are applied to the store as ordinary AND constraints, which no row can
satisfy, so the query returns the empty list (and the malformed range is never
partially applied: neither bound alone filters the result). -/
theorem claim6_amended_degenerate_range_yields_empty (st : Store)
    (f : DailyFilters) (ds de : Date)
    (h1 : f.start_date = some ds) (h2 : f.end_date = some de)
    (h : de.key < ds.key) :
    get_all_users_daily_usage st f = [] := by
  have hnil : st.daily.filter (dailyRowPass f) = [] := by
    rw [List.filter_eq_nil_iff]
    intro r _ hpass
    simp only [dailyRowPass, h1, h2, Bool.and_eq_true] at hpass
    have hle1 : ds.key ≤ r.date.key := by
      have := hpass.1.1.1.1
      simpa [Date.leb] using this
    have hle2 : r.date.key ≤ de.key := by
      have := hpass.1.1.1.2
      simpa [Date.leb] using this
    exact absurd (le_trans hle1 hle2) (not_le.mpr h)
  simp only [get_all_users_daily_usage, hnil]
  rfl

/-- Witness for the amended C6 at concrete inputs: the degenerate range
2024-05-02 .. 2024-05-01 applied to a one-row store returns the empty list. -/
theorem claim6_amended_witness :
    badRangeFilters.start_date = some ⟨2024, 5, 2⟩
      ∧ badRangeFilters.end_date = some ⟨2024, 5, 1⟩
      ∧ (Date.key ⟨2024, 5, 1⟩ < Date.key ⟨2024, 5, 2⟩)
      ∧ get_all_users_daily_usage (replay [eventMay1]) badRangeFilters = [] :=
  ⟨rfl, rfl, by decide,
    claim6_amended_degenerate_range_yields_empty (replay [eventMay1])
      badRangeFilters ⟨2024, 5, 2⟩ ⟨2024, 5, 1⟩ rfl rfl (by decide)⟩

/-! ## Per-user daily sums (for the full-history totals) -/

lemma sum_map_filter_eq {α M : Type} [AddCommMonoid M] (p : α → Bool) (g : α → M) :
    ∀ l : List α,
      ((l.filter p).map g).sum = (l.map (fun a => if p a then g a else 0)).sum := by
  intro l
  induction l with
  | nil => rfl
  | cons a l ih => by_cases h : p a <;> simp [h, ih]

lemma userIdMatches_iff (ru : Option String) (u : String) :
    userIdMatches ru u = true ↔ ru = some u := by
  cases ru <;> simp [userIdMatches]

lemma strFilterActive_of_ne_empty {u : String} (hu : u ≠ "") :
    strFilterActive (some u) = true := by
  have h : u.isEmpty = false := by
    cases he : u.isEmpty
    · rfl
    · exact absurd ((String.isEmpty_iff u).mp he) hu
  simp [strFilterActive, h]

/-- With only the (nonempty) user filter set, the daily WHERE clause reduces
to the user match. -/
lemma dailyRowPass_user_only {u : String} (hu : u ≠ "") (r : DailyUsage) :
    dailyRowPass
      { start_date := none, end_date := none, provider := none,
        model_id := none, user_id := some u } r = userIdMatches r.user_id u := by
  simp [dailyRowPass, strFilterActive_none, strFilterActive_of_ne_empty hu]

/-- Summing any additive per-row field (whose merge adds the event's
contribution and whose insert writes it) over a user's daily rows equals the
sum of the contributions of that user's events. -/
lemma user_daily_field_sum {M : Type} [AddCommMonoid M] (field : DailyUsage → M)
    (evfield : UsageEvent → M)
    (hmf : ∀ r e, field (dailyMerge r e) = field r + evfield e)
    (hif : ∀ e, field (dailyInsertRow e) = evfield e)
    {u : String} (hu : u ≠ "") (es : List UsageEvent) :
    ((get_user_daily_usage (replay es) u none none none none).map field).sum
      = ((es.filter (fun e => userIdMatches e.user_id u)).map evfield).sum := by
  have hperm :
      (get_user_daily_usage (replay es) u none none none none).Perm
        ((replay es).daily.filter (dailyRowPass
          { start_date := none, end_date := none, provider := none,
            model_id := none, user_id := some u })) :=
    List.perm_insertionSort _ _
  rw [((hperm.map field).sum_eq : _)]
  rw [List.filter_congr (fun r _ => dailyRowPass_user_only hu r)]
  rw [sum_map_filter_eq]
  rw [sum_map_filter_eq (fun e => userIdMatches e.user_id u) evfield es]
  have h := replay_daily_map_sum
    (fun r => if userIdMatches r.user_id u then field r else 0)
    (fun e => if userIdMatches e.user_id u then evfield e else 0)
    (fun e r hc => by
      have huser : r.user_id = e.user_id := by
        have hk := (dailyConflict_iff r e).mp hc
        have := congrArg (fun k => k.2.1) hk.1
        simpa [DailyUsage.key, UsageEvent.dailyKey] using this
      have hmu : (dailyMerge r e).user_id = r.user_id := rfl
      by_cases hru : userIdMatches r.user_id u = true
      · simp only [hmu, hru, if_true, hmf r e]
        rw [huser] at hru
        simp only [hru, if_true]
      · simp only [hmu, hru, if_false, Bool.false_eq_true]
        rw [huser] at hru
        simp only [hru, if_false, add_zero, Bool.false_eq_true])
    (fun e => by
      have hiu : (dailyInsertRow e).user_id = e.user_id := rfl
      by_cases heu : userIdMatches e.user_id u = true
      · simp only [hiu, heu, if_true, hif e]
      · simp only [hiu, heu, if_false, Bool.false_eq_true])
    es Store.empty
  simp only [Store.empty, List.map_nil, List.sum_nil, zero_add] at h
  exact h

/-- C7: `get_full_user_usage` computes its totals by summing the user's daily
aggregate rows (not the session rows); as a consequence, for any event stream
replayed from the empty store, each reported token total (and the rounded cost
total) equals the corresponding sum over that user's events exactly once —
even when several sessions share a day-model bucket, nothing is
double-counted.  The first conjunct records the mechanism: the totals are the
sums over the rows returned by the user-filtered daily query. -/
theorem claim7_full_usage_totals_use_daily (es : List UsageEvent) (u : String)
    (hu : u ≠ "") :
    ((get_full_user_usage (replay es) u).totals.total_tokens
        = ((get_user_daily_usage (replay es) u none none none none).map
            DailyUsage.total_tokens).sum
      ∧ (get_full_user_usage (replay es) u).total_cost
        = round6 ((get_user_daily_usage (replay es) u none none none none).map
            DailyUsage.total_cost).sum)
    ∧ ((get_full_user_usage (replay es) u).totals.prompt_tokens
        = ((es.filter (fun e => userIdMatches e.user_id u)).map
            UsageEvent.prompt_tokens).sum
      ∧ (get_full_user_usage (replay es) u).totals.completion_tokens
        = ((es.filter (fun e => userIdMatches e.user_id u)).map
            UsageEvent.completion_tokens).sum
      ∧ (get_full_user_usage (replay es) u).totals.total_tokens
        = ((es.filter (fun e => userIdMatches e.user_id u)).map
            UsageEvent.total_tokens).sum
      ∧ (get_full_user_usage (replay es) u).total_cost
        = round6 ((es.filter (fun e => userIdMatches e.user_id u)).map
            UsageEvent.total_cost).sum) := by
  refine ⟨⟨rfl, rfl⟩, ?_, ?_, ?_, ?_⟩
  · exact user_daily_field_sum DailyUsage.prompt_tokens UsageEvent.prompt_tokens
      (fun r e => rfl) (fun e => rfl) hu es
  · exact user_daily_field_sum DailyUsage.completion_tokens
      UsageEvent.completion_tokens (fun r e => rfl) (fun e => rfl) hu es
  · exact user_daily_field_sum DailyUsage.total_tokens UsageEvent.total_tokens
      (fun r e => rfl) (fun e => rfl) hu es
  · exact congrArg round6
      (user_daily_field_sum DailyUsage.total_cost UsageEvent.total_cost
        (fun r e => rfl) (fun e => rfl) hu es)

/-- Witness for C7: two sessions of user "user-42" sharing the 2024-05-01 /
"gpt-4o" bucket plus a second-day event, evaluated through the theorem at
user "user-42". -/
theorem claim7_witness :
    ("user-42" ≠ "")
      ∧ ((get_full_user_usage
            (replay [eventMay1, { eventMay1 with session_id := "session-b" }])
            "user-42").totals.total_tokens
        = (([eventMay1, { eventMay1 with session_id := "session-b" }].filter
            (fun e => userIdMatches e.user_id "user-42")).map
            UsageEvent.total_tokens).sum) :=
  ⟨by decide,
    (claim7_full_usage_totals_use_daily
      [eventMay1, { eventMay1 with session_id := "session-b" }] "user-42"
      (by decide)).2.2.2.1⟩

/-! ## Locating the merged row -/

/-- Upserting past a conflict-free prefix leaves the prefix untouched. -/
lemma sessionUpsert_append_left (e : UsageEvent) :
    ∀ l1 l2 : List SessionUsage, (∀ r ∈ l1, sessionConflict r e = false) →
      sessionUpsert e (l1 ++ l2) = l1 ++ sessionUpsert e l2 := by
  intro l1
  induction l1 with
  | nil => intro l2 _; rfl
  | cons a l1 ih =>
    intro l2 h
    have ha : sessionConflict a e = false := h a (List.mem_cons_self a l1)
    simp only [List.cons_append, sessionUpsert, ha, Bool.false_eq_true, if_false,
      List.append_eq]
    rw [ih l2 (fun r hr => h r (List.mem_cons_of_mem a hr))]

/-- If no stored row conflicts, the upsert appends the fresh row. -/
lemma sessionUpsert_no_conflict (e : UsageEvent) (l : List SessionUsage)
    (h : ∀ r ∈ l, sessionConflict r e = false) :
    sessionUpsert e l = l ++ [sessionInsertRow e] := by
  have := sessionUpsert_append_left e l [] h
  simpa using this

/-- Membership in an upsert result: an old row, a merged old row, or the
fresh row. -/
lemma mem_sessionUpsert (e : UsageEvent) :
    ∀ l : List SessionUsage, ∀ b ∈ sessionUpsert e l,
      b ∈ l ∨ (∃ r ∈ l, sessionConflict r e = true ∧ b = sessionMerge r e)
        ∨ b = sessionInsertRow e := by
  intro l
  induction l with
  | nil =>
    intro b hb
    simp only [sessionUpsert, List.mem_singleton] at hb
    exact Or.inr (Or.inr hb)
  | cons a rs ih =>
    intro b hb
    by_cases h : sessionConflict a e = true
    · simp only [sessionUpsert, h, if_true, List.mem_cons] at hb
      rcases hb with hb | hb
      · exact Or.inr (Or.inl ⟨a, List.mem_cons_self a rs, h, hb⟩)
      · exact Or.inl (List.mem_cons_of_mem a hb)
    · simp only [sessionUpsert, h, if_false, List.mem_cons, Bool.false_eq_true] at hb
      rcases hb with hb | hb
      · exact Or.inl (hb ▸ List.mem_cons_self a rs)
      · rcases ih b hb with h1 | ⟨r, hr, hc, he⟩ | h2
        · exact Or.inl (List.mem_cons_of_mem a h1)
        · exact Or.inr (Or.inl ⟨r, List.mem_cons_of_mem a hr, hc, he⟩)
        · exact Or.inr (Or.inr h2)

/-- Conflicts only look at the key and the NULLness of the stored user, so
two events with the same session key conflict with the same rows. -/
lemma sessionConflict_congr {e1 e2 : UsageEvent}
    (hkey : e2.sessionKey = e1.sessionKey) (r : SessionUsage) :
    sessionConflict r e2 = sessionConflict r e1 := by
  by_cases hc : sessionConflict r e1 = true
  · obtain ⟨hk, hn⟩ := (sessionConflict_iff r e1).mp hc
    rw [hc]
    exact (sessionConflict_iff r e2).mpr ⟨hkey ▸ hk, hn⟩
  · have hc2 : sessionConflict r e2 ≠ true := by
      intro h2
      obtain ⟨hk, hn⟩ := (sessionConflict_iff r e2).mp h2
      exact hc ((sessionConflict_iff r e1).mpr ⟨hk.trans hkey, hn⟩)
    rw [Bool.eq_false_iff.mpr hc2, Bool.eq_false_iff.mpr hc]

/-- C1 fails on the code when the event's optional user identifier is absent:
two `track_usage` calls sharing the key (session-1, NULL, 2024-05-01, gpt-4)
leave TWO session rows with that same key, not one — SQLite treats NULLs in a
unique index as pairwise distinct, so the second insert never conflicts and
nothing is summed. -/
theorem claim1_counterexample_null_user_key :
    ((replay [nullUserEvent, nullUserEvent]).sessions.map SessionUsage.key)
        = [nullUserEvent.sessionKey, nullUserEvent.sessionKey]
      ∧ (replay [nullUserEvent, nullUserEvent]).sessions.length = 2 := by
  decide

/-- C1 amended: for events whose user identifier is present, `track_usage`
performs merge-or-insert on the session aggregate keyed by (session_id,
user_id, usage_date, model_id).  Starting from a store without the key, the
first call inserts a row carrying the event's values and the second call
(sharing the key) merges into it, leaving exactly one row for the key whose
token and cost fields are the element-wise sums of the two events, with
`provider` and `currency` overwritten by the second event. -/
theorem claim1_merge_or_insert_present_user (e1 e2 : UsageEvent) (st : Store)
    (u : String) (hu : e1.user_id = some u)
    (hkey : e2.sessionKey = e1.sessionKey)
    (habsent : ∀ r ∈ st.sessions, sessionConflict r e1 = false) :
    (trackUsage e2 (trackUsage e1 st)).sessions
        = st.sessions ++ [sessionMerge (sessionInsertRow e1) e2]
      ∧ sessionMerge (sessionInsertRow e1) e2
        = { session_id := e1.session_id
            user_id := e1.user_id
            usage_date := e1.usage_date
            provider := e2.provider
            model_id := e1.model_id
            prompt_tokens := e1.prompt_tokens + e2.prompt_tokens
            completion_tokens := e1.completion_tokens + e2.completion_tokens
            total_tokens := e1.total_tokens + e2.total_tokens
            input_cost := e1.input_cost + e2.input_cost
            output_cost := e1.output_cost + e2.output_cost
            total_cost := e1.total_cost + e2.total_cost
            currency := e2.currency }
      ∧ ((trackUsage e2 (trackUsage e1 st)).sessions.filter
            (fun r => decide (r.key = e1.sessionKey))).length = 1 := by
  have hstep1 : (trackUsage e1 st).sessions = st.sessions ++ [sessionInsertRow e1] :=
    sessionUpsert_no_conflict e1 st.sessions habsent
  have habsent2 : ∀ r ∈ st.sessions, sessionConflict r e2 = false := by
    intro r hr
    rw [sessionConflict_congr hkey r]
    exact habsent r hr
  have hconf : sessionConflict (sessionInsertRow e1) e2 = true := by
    refine (sessionConflict_iff _ _).mpr ⟨?_, ?_⟩
    · show (sessionInsertRow e1).key = e2.sessionKey
      rw [hkey]
      rfl
    · show (sessionInsertRow e1).user_id ≠ none
      show e1.user_id ≠ none
      rw [hu]
      exact Option.some_ne_none u
  have hstep2 : (trackUsage e2 (trackUsage e1 st)).sessions
      = st.sessions ++ [sessionMerge (sessionInsertRow e1) e2] := by
    show sessionUpsert e2 (trackUsage e1 st).sessions = _
    rw [hstep1, sessionUpsert_append_left e2 st.sessions [sessionInsertRow e1] habsent2]
    simp only [sessionUpsert, hconf, if_true]
  refine ⟨hstep2, rfl, ?_⟩
  rw [hstep2, List.filter_append]
  have hnil : st.sessions.filter (fun r => decide (r.key = e1.sessionKey)) = [] := by
    rw [List.filter_eq_nil_iff]
    intro r hr hk
    have hk' : r.key = e1.sessionKey := of_decide_eq_true hk
    have : sessionConflict r e1 = true := by
      refine (sessionConflict_iff r e1).mpr ⟨hk', ?_⟩
      have : r.user_id = e1.user_id := by
        have := congrArg (fun k => k.2.1) hk'
        simpa [SessionUsage.key, UsageEvent.sessionKey] using this
      rw [this, hu]
      exact Option.some_ne_none u
    rw [habsent r hr] at this
    exact Bool.false_ne_true this
  rw [hnil]
  have hkm : (sessionMerge (sessionInsertRow e1) e2).key = e1.sessionKey := rfl
  simp [hkm]

/-- Witness for the amended C1 at the spec's concrete merge example: the two
events share the key (session-1, user-1, 2024-05-01, gpt-4), the empty store
holds no conflicting row, and the two calls leave a single merged row. -/
theorem claim1_witness :
    sharedKeyEventA.user_id = some "user-1"
      ∧ sharedKeyEventB.sessionKey = sharedKeyEventA.sessionKey
      ∧ (trackUsage sharedKeyEventB (trackUsage sharedKeyEventA Store.empty)).sessions
          = Store.empty.sessions
              ++ [sessionMerge (sessionInsertRow sharedKeyEventA) sharedKeyEventB] :=
  ⟨rfl, rfl,
    (claim1_merge_or_insert_present_user sharedKeyEventA sharedKeyEventB Store.empty
      "user-1" rfl rfl (by intro r hr; simp [Store.empty] at hr)).1⟩

/-! ## Key uniqueness and monotonicity of the session table -/

/-- No two rows of an upsert result share a key unless the earlier one has a
NULL user (SQLite NULL-distinctness); preserved from the input table. -/
lemma sessionUpsert_pairwise_nullKey (e : UsageEvent) :
    ∀ l : List SessionUsage,
      l.Pairwise (fun a b => a.key = b.key → a.user_id = none) →
      (sessionUpsert e l).Pairwise (fun a b => a.key = b.key → a.user_id = none) := by
  intro l
  induction l with
  | nil =>
    intro _
    simp [sessionUpsert]
  | cons a rs ih =>
    intro hl
    rw [List.pairwise_cons] at hl
    obtain ⟨ha, hrs⟩ := hl
    by_cases h : sessionConflict a e = true
    · simp only [sessionUpsert, h, if_true]
      rw [List.pairwise_cons]
      refine ⟨?_, hrs⟩
      intro b hb hk
      exact ha b hb hk
    · simp only [sessionUpsert, h, if_false, Bool.false_eq_true]
      rw [List.pairwise_cons]
      refine ⟨?_, ih hrs⟩
      intro b hb
      rcases mem_sessionUpsert e rs b hb with h1 | ⟨r, hr, _, hbe⟩ | h2
      · exact ha b h1
      · intro hk
        exact ha r hr (by rw [hbe] at hk; exact hk)
      · intro hk
        subst h2
        have hka : a.key = e.sessionKey := hk
        by_contra hnn
        have huser : a.user_id = e.user_id := by
          have := congrArg (fun k => k.2.1) hka
          simpa [SessionUsage.key, UsageEvent.sessionKey] using this
        exact h ((sessionConflict_iff a e).mpr ⟨hka, hnn⟩)

/-- Every stored session row survives an upsert with the same key and
field-wise no smaller token/cost values, provided the event's values are
non-negative. -/
lemma sessionUpsert_mono (e : UsageEvent)
    (h0 : 0 ≤ e.prompt_tokens) (h1 : 0 ≤ e.completion_tokens)
    (h2 : 0 ≤ e.input_cost) (h3 : 0 ≤ e.output_cost) (h4 : 0 ≤ e.total_cost) :
    ∀ l : List SessionUsage, ∀ r ∈ l,
      ∃ r' ∈ sessionUpsert e l,
        r'.key = r.key
          ∧ r.prompt_tokens ≤ r'.prompt_tokens
          ∧ r.completion_tokens ≤ r'.completion_tokens
          ∧ r.total_tokens ≤ r'.total_tokens
          ∧ r.input_cost ≤ r'.input_cost
          ∧ r.output_cost ≤ r'.output_cost
          ∧ r.total_cost ≤ r'.total_cost := by
  intro l
  induction l with
  | nil => intro r hr; cases hr
  | cons a rs ih =>
    intro r hr
    by_cases h : sessionConflict a e = true
    · simp only [sessionUpsert, h, if_true]
      rcases List.mem_cons.mp hr with rfl | hr'
      · refine ⟨sessionMerge r e, List.mem_cons_self _ _, rfl, ?_, ?_, ?_, ?_, ?_, ?_⟩
        · exact le_add_of_nonneg_right h0
        · exact le_add_of_nonneg_right h1
        · exact le_add_of_nonneg_right (add_nonneg h0 h1)
        · exact le_add_of_nonneg_right h2
        · exact le_add_of_nonneg_right h3
        · exact le_add_of_nonneg_right h4
      · exact ⟨r, List.mem_cons_of_mem _ hr', rfl, le_refl _, le_refl _, le_refl _,
          le_refl _, le_refl _, le_refl _⟩
    · simp only [sessionUpsert, h, if_false, Bool.false_eq_true]
      rcases List.mem_cons.mp hr with rfl | hr'
      · exact ⟨r, List.mem_cons_self _ _, rfl, le_refl _, le_refl _, le_refl _,
          le_refl _, le_refl _, le_refl _⟩
      · obtain ⟨r', hr'm, hk, hle⟩ := ih r hr'
        exact ⟨r', List.mem_cons_of_mem _ hr'm, hk, hle⟩

/-- A store property preserved by every `trackUsage` step holds after any
replayed suffix. -/
lemma foldl_trackUsage_preserve (P : Store → Prop)
    (h : ∀ e st, P st → P (trackUsage e st)) :
    ∀ (es : List UsageEvent) (st : Store), P st →
      P (es.foldl (fun s e => trackUsage e s) st) := by
  intro es
  induction es with
  | nil => intro st hst; exact hst
  | cons e es ih => intro st hst; exact ih (trackUsage e st) (h e st hst)

/-- C5 fails on the code for events whose optional user identifier is absent:
replaying the same NULL-user event twice yields a reachable store holding two
session rows with the identical key, so "exactly one row per key, including
for events whose optional user identifier is absent" does not hold. -/
theorem claim5_counterexample_null_user_duplicate :
    ((replay [nullUserEvent, nullUserEvent]).sessions.filter
        (fun r => decide (r.key = nullUserEvent.sessionKey))).length = 2 := by
  decide

/-- C5 amended: in every store reachable by `track_usage` calls there is at
most one session row per (session_id, user_id, usage_date, model_id) key
whose user identifier is *present* (rows with an absent user identifier can
duplicate a key, because SQLite unique indexes treat NULLs as distinct), and
a row's token and cost fields are monotonically non-decreasing across any
further merge, given non-negative event values. -/
theorem claim5_unique_present_key_and_monotone (es : List UsageEvent)
    (e : UsageEvent) (st : Store)
    (h0 : 0 ≤ e.prompt_tokens) (h1 : 0 ≤ e.completion_tokens)
    (h2 : 0 ≤ e.input_cost) (h3 : 0 ≤ e.output_cost) (h4 : 0 ≤ e.total_cost) :
    ((replay es).sessions.Pairwise (fun a b => a.key = b.key → a.user_id = none))
      ∧ (∀ r ∈ st.sessions, ∃ r' ∈ (trackUsage e st).sessions,
          r'.key = r.key
            ∧ r.prompt_tokens ≤ r'.prompt_tokens
            ∧ r.completion_tokens ≤ r'.completion_tokens
            ∧ r.total_tokens ≤ r'.total_tokens
            ∧ r.input_cost ≤ r'.input_cost
            ∧ r.output_cost ≤ r'.output_cost
            ∧ r.total_cost ≤ r'.total_cost) := by
  constructor
  · exact foldl_trackUsage_preserve
      (fun s => s.sessions.Pairwise (fun a b => a.key = b.key → a.user_id = none))
      (fun e' s hs => sessionUpsert_pairwise_nullKey e' s.sessions hs)
      es Store.empty (by simp [Store.empty])
  · exact sessionUpsert_mono e h0 h1 h2 h3 h4 st.sessions

/-- Witness for the amended C5: a one-row store merged with a non-negative
event; all five non-negativity hypotheses hold at 0-cost, 50/10-token data. -/
theorem claim5_witness :
    ((0 : Int) ≤ sharedKeyEventB.prompt_tokens
        ∧ (0 : Int) ≤ sharedKeyEventB.completion_tokens
        ∧ (0 : Rat) ≤ sharedKeyEventB.input_cost
        ∧ (0 : Rat) ≤ sharedKeyEventB.output_cost
        ∧ (0 : Rat) ≤ sharedKeyEventB.total_cost)
      ∧ (((replay [sharedKeyEventA]).sessions.Pairwise
            (fun a b => a.key = b.key → a.user_id = none))
        ∧ (∀ r ∈ (replay [sharedKeyEventA]).sessions,
            ∃ r' ∈ (trackUsage sharedKeyEventB (replay [sharedKeyEventA])).sessions,
              r'.key = r.key
                ∧ r.prompt_tokens ≤ r'.prompt_tokens
                ∧ r.completion_tokens ≤ r'.completion_tokens
                ∧ r.total_tokens ≤ r'.total_tokens
                ∧ r.input_cost ≤ r'.input_cost
                ∧ r.output_cost ≤ r'.output_cost
                ∧ r.total_cost ≤ r'.total_cost)) :=
  ⟨⟨by decide, by decide, by decide, by decide, by decide⟩,
    claim5_unique_present_key_and_monotone [sharedKeyEventA] sharedKeyEventB
      (replay [sharedKeyEventA]) (by decide) (by decide) (by decide) (by decide)
      (by decide)⟩

/-! ## Counting events per daily/monthly key -/

lemma dailyKeyCount_append (es : List UsageEvent) (e : UsageEvent) (k) :
    dailyKeyCount (es ++ [e]) k
      = dailyKeyCount es k + (if e.dailyKey = k then 1 else 0) := by
  simp only [dailyKeyCount, List.filter_append, List.length_append]
  by_cases h : e.dailyKey = k <;> simp [h]

lemma dailyKeyTokens_append (es : List UsageEvent) (e : UsageEvent) (k) :
    dailyKeyTokens (es ++ [e]) k
      = dailyKeyTokens es k + (if e.dailyKey = k then e.total_tokens else 0) := by
  simp only [dailyKeyTokens, List.filter_append, List.map_append, List.sum_append]
  by_cases h : e.dailyKey = k <;> simp [h]

lemma dailyKeyCount_ne_zero {es : List UsageEvent} {k}
    (h : dailyKeyCount es k ≠ 0) : ∃ e ∈ es, e.dailyKey = k := by
  rcases List.exists_mem_of_length_pos (Nat.pos_of_ne_zero h) with ⟨x, hx⟩
  have hx' := List.mem_filter.mp hx
  exact ⟨x, hx'.1, of_decide_eq_true hx'.2⟩

lemma monthlyKeyCount_append (es : List UsageEvent) (e : UsageEvent) (k) :
    monthlyKeyCount (es ++ [e]) k
      = monthlyKeyCount es k + (if e.monthlyKey = k then 1 else 0) := by
  simp only [monthlyKeyCount, List.filter_append, List.length_append]
  by_cases h : e.monthlyKey = k <;> simp [h]

lemma monthlyKeyTokens_append (es : List UsageEvent) (e : UsageEvent) (k) :
    monthlyKeyTokens (es ++ [e]) k
      = monthlyKeyTokens es k + (if e.monthlyKey = k then e.total_tokens else 0) := by
  simp only [monthlyKeyTokens, List.filter_append, List.map_append, List.sum_append]
  by_cases h : e.monthlyKey = k <;> simp [h]

lemma monthlyKeyCount_ne_zero {es : List UsageEvent} {k}
    (h : monthlyKeyCount es k ≠ 0) : ∃ e ∈ es, e.monthlyKey = k := by
  rcases List.exists_mem_of_length_pos (Nat.pos_of_ne_zero h) with ⟨x, hx⟩
  have hx' := List.mem_filter.mp hx
  exact ⟨x, hx'.1, of_decide_eq_true hx'.2⟩

/-- For an event with a present user, a daily conflict is exactly key
equality. -/
lemma dailyConflict_key_iff {r : DailyUsage} {e : UsageEvent}
    (he : e.user_id ≠ none) : dailyConflict r e = true ↔ r.key = e.dailyKey := by
  rw [dailyConflict_iff]
  constructor
  · exact fun h => h.1
  · intro hk
    refine ⟨hk, ?_⟩
    have : r.user_id = e.user_id := by
      have := congrArg (fun k => k.2.1) hk
      simpa [DailyUsage.key, UsageEvent.dailyKey] using this
    rw [this]
    exact he

/-- For an event with a present user, a monthly conflict is exactly key
equality. -/
lemma monthlyConflict_key_iff {r : MonthlyUsage} {e : UsageEvent}
    (he : e.user_id ≠ none) : monthlyConflict r e = true ↔ r.key = e.monthlyKey := by
  rw [monthlyConflict_iff]
  constructor
  · exact fun h => h.1
  · intro hk
    refine ⟨hk, ?_⟩
    have : r.user_id = e.user_id := by
      have := congrArg (fun k => k.2.1) hk
      simpa [MonthlyUsage.key, UsageEvent.monthlyKey] using this
    rw [this]
    exact he

/-- Membership in a daily upsert result. -/
lemma mem_dailyUpsert (e : UsageEvent) :
    ∀ l : List DailyUsage, ∀ b ∈ dailyUpsert e l,
      b ∈ l ∨ (∃ r ∈ l, dailyConflict r e = true ∧ b = dailyMerge r e)
        ∨ b = dailyInsertRow e := by
  intro l
  induction l with
  | nil =>
    intro b hb
    simp only [dailyUpsert, List.mem_singleton] at hb
    exact Or.inr (Or.inr hb)
  | cons a rs ih =>
    intro b hb
    by_cases h : dailyConflict a e = true
    · simp only [dailyUpsert, h, if_true, List.mem_cons] at hb
      rcases hb with hb | hb
      · exact Or.inr (Or.inl ⟨a, List.mem_cons_self a rs, h, hb⟩)
      · exact Or.inl (List.mem_cons_of_mem a hb)
    · simp only [dailyUpsert, h, if_false, List.mem_cons, Bool.false_eq_true] at hb
      rcases hb with hb | hb
      · exact Or.inl (hb ▸ List.mem_cons_self a rs)
      · rcases ih b hb with h1 | ⟨r, hr, hc, hbe⟩ | h2
        · exact Or.inl (List.mem_cons_of_mem a h1)
        · exact Or.inr (Or.inl ⟨r, List.mem_cons_of_mem a hr, hc, hbe⟩)
        · exact Or.inr (Or.inr h2)

/-- Membership in a monthly upsert result. -/
lemma mem_monthlyUpsert (e : UsageEvent) :
    ∀ l : List MonthlyUsage, ∀ b ∈ monthlyUpsert e l,
      b ∈ l ∨ (∃ r ∈ l, monthlyConflict r e = true ∧ b = monthlyMerge r e)
        ∨ b = monthlyInsertRow e := by
  intro l
  induction l with
  | nil =>
    intro b hb
    simp only [monthlyUpsert, List.mem_singleton] at hb
    exact Or.inr (Or.inr hb)
  | cons a rs ih =>
    intro b hb
    by_cases h : monthlyConflict a e = true
    · simp only [monthlyUpsert, h, if_true, List.mem_cons] at hb
      rcases hb with hb | hb
      · exact Or.inr (Or.inl ⟨a, List.mem_cons_self a rs, h, hb⟩)
      · exact Or.inl (List.mem_cons_of_mem a hb)
    · simp only [monthlyUpsert, h, if_false, List.mem_cons, Bool.false_eq_true] at hb
      rcases hb with hb | hb
      · exact Or.inl (hb ▸ List.mem_cons_self a rs)
      · rcases ih b hb with h1 | ⟨r, hr, hc, hbe⟩ | h2
        · exact Or.inl (List.mem_cons_of_mem a h1)
        · exact Or.inr (Or.inl ⟨r, List.mem_cons_of_mem a hr, hc, hbe⟩)
        · exact Or.inr (Or.inr h2)

/-- For a present-user event, distinct keys stay pairwise distinct through a
daily upsert. -/
lemma dailyUpsert_pairwise_keyNe (e : UsageEvent) (he : e.user_id ≠ none) :
    ∀ l : List DailyUsage, l.Pairwise (fun a b => a.key ≠ b.key) →
      (dailyUpsert e l).Pairwise (fun a b => a.key ≠ b.key) := by
  intro l
  induction l with
  | nil => intro _; simp [dailyUpsert]
  | cons a rs ih =>
    intro hl
    rw [List.pairwise_cons] at hl
    obtain ⟨ha, hrs⟩ := hl
    by_cases h : dailyConflict a e = true
    · simp only [dailyUpsert, h, if_true]
      rw [List.pairwise_cons]
      exact ⟨fun b hb => by rw [dailyMerge_key]; exact ha b hb, hrs⟩
    · simp only [dailyUpsert, h, if_false, Bool.false_eq_true]
      rw [List.pairwise_cons]
      refine ⟨?_, ih hrs⟩
      intro b hb
      rcases mem_dailyUpsert e rs b hb with h1 | ⟨r, hr, _, hbe⟩ | h2
      · exact ha b h1
      · rw [hbe, dailyMerge_key]
        exact ha r hr
      · rw [h2]
        intro hk
        exact h ((dailyConflict_key_iff he).mpr hk)

/-- Every key present before a daily upsert is still present after it. -/
lemma dailyUpsert_key_preserved (e : UsageEvent) :
    ∀ l : List DailyUsage, ∀ x ∈ l, ∃ y ∈ dailyUpsert e l, y.key = x.key := by
  intro l
  induction l with
  | nil => intro x hx; cases hx
  | cons a rs ih =>
    intro x hx
    by_cases h : dailyConflict a e = true
    · simp only [dailyUpsert, h, if_true]
      rcases List.mem_cons.mp hx with rfl | hx'
      · exact ⟨dailyMerge x e, List.mem_cons_self _ _, dailyMerge_key x e⟩
      · exact ⟨x, List.mem_cons_of_mem _ hx', rfl⟩
    · simp only [dailyUpsert, h, if_false, Bool.false_eq_true]
      rcases List.mem_cons.mp hx with rfl | hx'
      · exact ⟨x, List.mem_cons_self _ _, rfl⟩
      · obtain ⟨y, hy, hk⟩ := ih x hx'
        exact ⟨y, List.mem_cons_of_mem _ hy, hk⟩

/-- After a present-user daily upsert some row carries the event's key. -/
lemma dailyUpsert_event_key (e : UsageEvent) (he : e.user_id ≠ none) :
    ∀ l : List DailyUsage, ∃ y ∈ dailyUpsert e l, y.key = e.dailyKey := by
  intro l
  induction l with
  | nil => exact ⟨dailyInsertRow e, List.mem_singleton_self _, rfl⟩
  | cons a rs ih =>
    by_cases h : dailyConflict a e = true
    · simp only [dailyUpsert, h, if_true]
      exact ⟨dailyMerge a e, List.mem_cons_self _ _,
        (dailyMerge_key a e).trans ((dailyConflict_key_iff he).mp h)⟩
    · simp only [dailyUpsert, h, if_false, Bool.false_eq_true]
      obtain ⟨y, hy, hk⟩ := ih
      exact ⟨y, List.mem_cons_of_mem _ hy, hk⟩

/-- Statistics step for the daily table: provided rows carry correct
`request_count` / `total_tokens` statistics for the processed events `es` and
either the event's key already has a row or no processed event carried it,
every row after the upsert carries correct statistics for `es ++ [e]`. -/
lemma dailyUpsert_stats (e : UsageEvent) (he : e.user_id ≠ none)
    (es : List UsageEvent) :
    ∀ l : List DailyUsage, l.Pairwise (fun a b => a.key ≠ b.key) →
      (∀ r ∈ l, r.request_count = dailyKeyCount es r.key
        ∧ r.total_tokens = dailyKeyTokens es r.key) →
      ((∃ r ∈ l, r.key = e.dailyKey) ∨ dailyKeyCount es e.dailyKey = 0) →
      ∀ r ∈ dailyUpsert e l,
        r.request_count = dailyKeyCount (es ++ [e]) r.key
          ∧ r.total_tokens = dailyKeyTokens (es ++ [e]) r.key := by
  intro l
  induction l with
  | nil =>
    intro _ _ hzero r hr
    simp only [dailyUpsert, List.mem_singleton] at hr
    subst hr
    have hz : dailyKeyCount es e.dailyKey = 0 := by
      rcases hzero with ⟨r0, hr0, _⟩ | hz
      · cases hr0
      · exact hz
    have hzt : dailyKeyTokens es e.dailyKey = 0 := by
      have : es.filter (fun e' => decide (e'.dailyKey = e.dailyKey)) = [] :=
        List.length_eq_zero.mp hz
      simp [dailyKeyTokens, this]
    have hkey : (dailyInsertRow e).key = e.dailyKey := rfl
    rw [dailyKeyCount_append, dailyKeyTokens_append, hkey, hz, hzt]
    simp [dailyInsertRow]
  | cons a rs ih =>
    intro hpw hstats hknown r hr
    rw [List.pairwise_cons] at hpw
    obtain ⟨hane, hpwrs⟩ := hpw
    by_cases h : dailyConflict a e = true
    · have hak : a.key = e.dailyKey := (dailyConflict_key_iff he).mp h
      simp only [dailyUpsert, h, if_true, List.mem_cons] at hr
      rcases hr with rfl | hr'
      · have hsa := hstats a (List.mem_cons_self a rs)
        have hkm : (dailyMerge a e).key = e.dailyKey := (dailyMerge_key a e).trans hak
        rw [dailyKeyCount_append, dailyKeyTokens_append, hkm]
        simp only [if_pos rfl]
        constructor
        · show a.request_count + 1 = _
          rw [hsa.1, hak]
          simp
        · show a.total_tokens + e.total_tokens = _
          rw [hsa.2, hak]
          simp
      · have hsr := hstats r (List.mem_cons_of_mem a hr')
        have hne : e.dailyKey ≠ r.key := fun hk => hane r hr' (hak.trans hk)
        rw [dailyKeyCount_append, dailyKeyTokens_append, if_neg hne, if_neg hne]
        simp [hsr.1, hsr.2]
    · have hane2 : a.key ≠ e.dailyKey := fun hk => h ((dailyConflict_key_iff he).mpr hk)
      simp only [dailyUpsert, h, if_false, List.mem_cons, Bool.false_eq_true] at hr
      rcases hr with rfl | hr'
      · have hsa := hstats r (List.mem_cons_self r rs)
        have hne : e.dailyKey ≠ r.key := fun hk => hane2 hk.symm
        rw [dailyKeyCount_append, dailyKeyTokens_append, if_neg hne, if_neg hne]
        simp [hsa.1, hsa.2]
      · refine ih hpwrs (fun x hx => hstats x (List.mem_cons_of_mem a hx)) ?_ r hr'
        rcases hknown with ⟨r0, hr0, hk0⟩ | hz
        · rcases List.mem_cons.mp hr0 with rfl | hr0'
          · exact absurd hk0 hane2
          · exact Or.inl ⟨r0, hr0', hk0⟩
        · exact Or.inr hz

/-- Monthly analogue of `dailyUpsert_pairwise_keyNe`. -/
lemma monthlyUpsert_pairwise_keyNe (e : UsageEvent) (he : e.user_id ≠ none) :
    ∀ l : List MonthlyUsage, l.Pairwise (fun a b => a.key ≠ b.key) →
      (monthlyUpsert e l).Pairwise (fun a b => a.key ≠ b.key) := by
  intro l
  induction l with
  | nil => intro _; simp [monthlyUpsert]
  | cons a rs ih =>
    intro hl
    rw [List.pairwise_cons] at hl
    obtain ⟨ha, hrs⟩ := hl
    by_cases h : monthlyConflict a e = true
    · simp only [monthlyUpsert, h, if_true]
      rw [List.pairwise_cons]
      exact ⟨fun b hb => by rw [monthlyMerge_key]; exact ha b hb, hrs⟩
    · simp only [monthlyUpsert, h, if_false, Bool.false_eq_true]
      rw [List.pairwise_cons]
      refine ⟨?_, ih hrs⟩
      intro b hb
      rcases mem_monthlyUpsert e rs b hb with h1 | ⟨r, hr, _, hbe⟩ | h2
      · exact ha b h1
      · rw [hbe, monthlyMerge_key]
        exact ha r hr
      · rw [h2]
        intro hk
        exact h ((monthlyConflict_key_iff he).mpr hk)

/-- Monthly analogue of `dailyUpsert_key_preserved`. -/
lemma monthlyUpsert_key_preserved (e : UsageEvent) :
    ∀ l : List MonthlyUsage, ∀ x ∈ l, ∃ y ∈ monthlyUpsert e l, y.key = x.key := by
  intro l
  induction l with
  | nil => intro x hx; cases hx
  | cons a rs ih =>
    intro x hx
    by_cases h : monthlyConflict a e = true
    · simp only [monthlyUpsert, h, if_true]
      rcases List.mem_cons.mp hx with rfl | hx'
      · exact ⟨monthlyMerge x e, List.mem_cons_self _ _, monthlyMerge_key x e⟩
      · exact ⟨x, List.mem_cons_of_mem _ hx', rfl⟩
    · simp only [monthlyUpsert, h, if_false, Bool.false_eq_true]
      rcases List.mem_cons.mp hx with rfl | hx'
      · exact ⟨x, List.mem_cons_self _ _, rfl⟩
      · obtain ⟨y, hy, hk⟩ := ih x hx'
        exact ⟨y, List.mem_cons_of_mem _ hy, hk⟩

/-- Monthly analogue of `dailyUpsert_event_key`. -/
lemma monthlyUpsert_event_key (e : UsageEvent) (he : e.user_id ≠ none) :
    ∀ l : List MonthlyUsage, ∃ y ∈ monthlyUpsert e l, y.key = e.monthlyKey := by
  intro l
  induction l with
  | nil => exact ⟨monthlyInsertRow e, List.mem_singleton_self _, rfl⟩
  | cons a rs ih =>
    by_cases h : monthlyConflict a e = true
    · simp only [monthlyUpsert, h, if_true]
      exact ⟨monthlyMerge a e, List.mem_cons_self _ _,
        (monthlyMerge_key a e).trans ((monthlyConflict_key_iff he).mp h)⟩
    · simp only [monthlyUpsert, h, if_false, Bool.false_eq_true]
      obtain ⟨y, hy, hk⟩ := ih
      exact ⟨y, List.mem_cons_of_mem _ hy, hk⟩

/-- Monthly analogue of `dailyUpsert_stats`. -/
lemma monthlyUpsert_stats (e : UsageEvent) (he : e.user_id ≠ none)
    (es : List UsageEvent) :
    ∀ l : List MonthlyUsage, l.Pairwise (fun a b => a.key ≠ b.key) →
      (∀ r ∈ l, r.request_count = monthlyKeyCount es r.key
        ∧ r.total_tokens = monthlyKeyTokens es r.key) →
      ((∃ r ∈ l, r.key = e.monthlyKey) ∨ monthlyKeyCount es e.monthlyKey = 0) →
      ∀ r ∈ monthlyUpsert e l,
        r.request_count = monthlyKeyCount (es ++ [e]) r.key
          ∧ r.total_tokens = monthlyKeyTokens (es ++ [e]) r.key := by
  intro l
  induction l with
  | nil =>
    intro _ _ hzero r hr
    simp only [monthlyUpsert, List.mem_singleton] at hr
    subst hr
    have hz : monthlyKeyCount es e.monthlyKey = 0 := by
      rcases hzero with ⟨r0, hr0, _⟩ | hz
      · cases hr0
      · exact hz
    have hzt : monthlyKeyTokens es e.monthlyKey = 0 := by
      have : es.filter (fun e' => decide (e'.monthlyKey = e.monthlyKey)) = [] :=
        List.length_eq_zero.mp hz
      simp [monthlyKeyTokens, this]
    have hkey : (monthlyInsertRow e).key = e.monthlyKey := rfl
    rw [monthlyKeyCount_append, monthlyKeyTokens_append, hkey, hz, hzt]
    simp [monthlyInsertRow]
  | cons a rs ih =>
    intro hpw hstats hknown r hr
    rw [List.pairwise_cons] at hpw
    obtain ⟨hane, hpwrs⟩ := hpw
    by_cases h : monthlyConflict a e = true
    · have hak : a.key = e.monthlyKey := (monthlyConflict_key_iff he).mp h
      simp only [monthlyUpsert, h, if_true, List.mem_cons] at hr
      rcases hr with rfl | hr'
      · have hsa := hstats a (List.mem_cons_self a rs)
        have hkm : (monthlyMerge a e).key = e.monthlyKey :=
          (monthlyMerge_key a e).trans hak
        rw [monthlyKeyCount_append, monthlyKeyTokens_append, hkm]
        constructor
        · show a.request_count + 1 = _
          rw [hsa.1, hak]
          simp
        · show a.total_tokens + e.total_tokens = _
          rw [hsa.2, hak]
          simp
      · have hsr := hstats r (List.mem_cons_of_mem a hr')
        have hne : e.monthlyKey ≠ r.key := fun hk => hane r hr' (hak.trans hk)
        rw [monthlyKeyCount_append, monthlyKeyTokens_append, if_neg hne, if_neg hne]
        simp [hsr.1, hsr.2]
    · have hane2 : a.key ≠ e.monthlyKey :=
        fun hk => h ((monthlyConflict_key_iff he).mpr hk)
      simp only [monthlyUpsert, h, if_false, List.mem_cons, Bool.false_eq_true] at hr
      rcases hr with rfl | hr'
      · have hsa := hstats r (List.mem_cons_self r rs)
        have hne : e.monthlyKey ≠ r.key := fun hk => hane2 hk.symm
        rw [monthlyKeyCount_append, monthlyKeyTokens_append, if_neg hne, if_neg hne]
        simp [hsa.1, hsa.2]
      · refine ih hpwrs (fun x hx => hstats x (List.mem_cons_of_mem a hx)) ?_ r hr'
        rcases hknown with ⟨r0, hr0, hk0⟩ | hz
        · rcases List.mem_cons.mp hr0 with rfl | hr0'
          · exact absurd hk0 hane2
          · exact Or.inl ⟨r0, hr0', hk0⟩
        · exact Or.inr hz

lemma replay_append_singleton (es : List UsageEvent) (e : UsageEvent) :
    replay (es ++ [e]) = trackUsage e (replay es) := by
  simp [replay]

/-- C4: after replaying any stream of events all carrying a present user
identifier from the empty store, every daily (and monthly) aggregate row's
`request_count` equals the number of events merged into that row's key and its
`total_tokens` equals the sum of `prompt_tokens + completion_tokens` over
those events; distinct keys (e.g. events differing in date or model) occupy
pairwise distinct, independent rows, and every event's key has its row. -/
theorem claim4_request_count_and_token_stats (es : List UsageEvent)
    (h : ∀ e ∈ es, e.user_id ≠ none) :
    ((replay es).daily.Pairwise (fun a b => a.key ≠ b.key)
      ∧ (∀ r ∈ (replay es).daily,
          r.request_count = dailyKeyCount es r.key
            ∧ r.total_tokens = dailyKeyTokens es r.key)
      ∧ (∀ e ∈ es, ∃ r ∈ (replay es).daily, r.key = e.dailyKey))
    ∧ ((replay es).monthly.Pairwise (fun a b => a.key ≠ b.key)
      ∧ (∀ r ∈ (replay es).monthly,
          r.request_count = monthlyKeyCount es r.key
            ∧ r.total_tokens = monthlyKeyTokens es r.key)
      ∧ (∀ e ∈ es, ∃ r ∈ (replay es).monthly, r.key = e.monthlyKey)) := by
  induction es using List.reverseRecOn with
  | nil =>
    refine ⟨⟨?_, ?_, ?_⟩, ?_, ?_, ?_⟩ <;> simp [replay, Store.empty]
  | append_singleton es e ih =>
    have hes : ∀ e' ∈ es, e'.user_id ≠ none :=
      fun e' he' => h e' (List.mem_append_left _ he')
    have he : e.user_id ≠ none := h e (List.mem_append_right _ (List.mem_singleton_self e))
    obtain ⟨⟨hdp, hds, hdc⟩, hmp, hms, hmc⟩ := ih hes
    rw [replay_append_singleton]
    have hdknown : (∃ r ∈ (replay es).daily, r.key = e.dailyKey)
        ∨ dailyKeyCount es e.dailyKey = 0 := by
      by_cases hz : dailyKeyCount es e.dailyKey = 0
      · exact Or.inr hz
      · obtain ⟨e', he', hk⟩ := dailyKeyCount_ne_zero hz
        obtain ⟨r0, hr0, hk0⟩ := hdc e' he'
        exact Or.inl ⟨r0, hr0, hk0.trans hk⟩
    have hmknown : (∃ r ∈ (replay es).monthly, r.key = e.monthlyKey)
        ∨ monthlyKeyCount es e.monthlyKey = 0 := by
      by_cases hz : monthlyKeyCount es e.monthlyKey = 0
      · exact Or.inr hz
      · obtain ⟨e', he', hk⟩ := monthlyKeyCount_ne_zero hz
        obtain ⟨r0, hr0, hk0⟩ := hmc e' he'
        exact Or.inl ⟨r0, hr0, hk0.trans hk⟩
    refine ⟨⟨?_, ?_, ?_⟩, ?_, ?_, ?_⟩
    · exact dailyUpsert_pairwise_keyNe e he _ hdp
    · exact dailyUpsert_stats e he es _ hdp hds hdknown
    · intro e' he'
      rcases List.mem_append.mp he' with he1 | he1
      · obtain ⟨x, hx, hk⟩ := hdc e' he1
        obtain ⟨y, hy, hky⟩ := dailyUpsert_key_preserved e _ x hx
        exact ⟨y, hy, hky.trans hk⟩
      · rw [List.mem_singleton] at he1
        subst he1
        exact dailyUpsert_event_key e' he _
    · exact monthlyUpsert_pairwise_keyNe e he _ hmp
    · exact monthlyUpsert_stats e he es _ hmp hms hmknown
    · intro e' he'
      rcases List.mem_append.mp he' with he1 | he1
      · obtain ⟨x, hx, hk⟩ := hmc e' he1
        obtain ⟨y, hy, hky⟩ := monthlyUpsert_key_preserved e _ x hx
        exact ⟨y, hy, hky.trans hk⟩
      · rw [List.mem_singleton] at he1
        subst he1
        exact monthlyUpsert_event_key e' he _

/-- Witness for C4 at the spec's daily-grouping example: two same-key events
plus one on a different day/model, all with present users; the per-row
request-count and token statistics follow by applying the theorem. -/
theorem claim4_witness :
    (∀ e ∈ [eventMay1, eventMay1, eventMay2], e.user_id ≠ none)
      ∧ (∀ r ∈ (replay [eventMay1, eventMay1, eventMay2]).daily,
          r.request_count = dailyKeyCount [eventMay1, eventMay1, eventMay2] r.key
            ∧ r.total_tokens = dailyKeyTokens [eventMay1, eventMay1, eventMay2] r.key) :=
  ⟨by decide,
    (claim4_request_count_and_token_stats [eventMay1, eventMay1, eventMay2]
      (by decide)).1.2.1⟩
